import Mathlib

/-
  Verification of the HCQ (Hardware Command Queue) runtime core,
  a shallow embedding of tinygrad/runtime/support/hcq.py.

  Conventions of the embedding:
  * Python lists become Lean `List`s; Python unbounded integers become
    `Nat` (addresses, sizes, signal values are non-negative throughout the
    source) or `Int` where a subtraction could go negative.
  * Mutating methods become functions from the old state to the new state.
    A Python method's return value is modelled separately from its state
    effect where the claims distinguish the two (`MethodCall` below records
    the post state, the returned value and a raised exception, if any).
  * Backend hooks (`_signal`, `_wait`, `_update_signal`, `_submit`, ...)
    raise `NotImplementedError` in this file's source; they are modelled as
    explicit function / word-list parameters.
  * Real-time behaviour (`time.time()` and reads of a hardware-written
    signal cell) is modelled by oracle streams indexed by the read count.
-/

/-! ## Queue builder (`hcq_command`, `HWQueue`) -/

/-- The command kind recorded in `cmds_meta` by the `hcq_command` decorator.
In the source the kind is the wrapped function's `__name__` string; the six
possible strings become the six constructors. -/
inductive CmdKind where
  | signal
  | wait
  | timestamp
  | memory_barrier
  | exec
  | copy
deriving DecidableEq, Repr

/-- Errors raised by `HWQueue` methods: `RuntimeError("called update_X not
on a X command")` and Python's `IndexError` for an out-of-range index. -/
inductive QueueError where
  | commandKindMismatch (idx : Nat) (expected actual : CmdKind)
  | indexError
deriving DecidableEq, Repr

/-- State of `HWQueue.__init__`: the 32-bit word stream `self._q` and the
three parallel metadata vectors appended by the `hcq_command` decorator.
(`binded_device` plays no role in the claims and is omitted.) -/
structure HWQueue where
  q : List Nat
  cmds_offset : List Nat
  cmds_len : List Nat
  cmds_meta : List CmdKind
deriving DecidableEq, Repr

/-- `HWQueue.__init__`: everything starts empty. -/
def HWQueue.init : HWQueue := ⟨[], [], [], []⟩

/-- The `hcq_command` decorator's append-and-record protocol: record the
current stream length as the command's offset, run the backend emitter
(which extends `self._q` via `self.q(*args)` by `emitted`), then record the
added length and the command kind.  `emitted` abstracts the backend's
packet encoding of the command's arguments. -/
def HWQueue.appendCmd (self : HWQueue) (kind : CmdKind) (emitted : List Nat) : HWQueue :=
  { q := self.q ++ emitted,
    cmds_offset := self.cmds_offset ++ [self.q.length],
    cmds_len := self.cmds_len ++ [(self.q ++ emitted).length - self.q.length],
    cmds_meta := self.cmds_meta ++ [kind] }

/-- Result of calling a Python `HWQueue` method: the queue state after the
call, the value the method returned (`some` a queue object, or `none` for
Python `None` / an exceptional exit), and the exception raised, if any. -/
structure MethodCall where
  state : HWQueue
  ret : Option HWQueue
  err : Option QueueError
deriving DecidableEq, Repr

/-- `HWQueue.signal(signal, value)`: `hcq_command`-wrapped, returns `self`. -/
def HWQueue.signal (self : HWQueue) (emitted : List Nat) : MethodCall :=
  let q' := self.appendCmd .signal emitted
  ⟨q', some q', none⟩

/-- `HWQueue.wait(signal, value)`: `hcq_command`-wrapped, returns `self`. -/
def HWQueue.wait (self : HWQueue) (emitted : List Nat) : MethodCall :=
  let q' := self.appendCmd .wait emitted
  ⟨q', some q', none⟩

/-- `HWQueue.timestamp(signal)`: `hcq_command`-wrapped, returns `self`. -/
def HWQueue.timestamp (self : HWQueue) (emitted : List Nat) : MethodCall :=
  let q' := self.appendCmd .timestamp emitted
  ⟨q', some q', none⟩

/-- `HWQueue.memory_barrier()`: `hcq_command`-wrapped, returns `self`. -/
def HWQueue.memory_barrier (self : HWQueue) (emitted : List Nat) : MethodCall :=
  let q' := self.appendCmd .memory_barrier emitted
  ⟨q', some q', none⟩

/-- `HWQueue.exec(prg, args_state, global_size, local_size)`:
`hcq_command`-wrapped, returns `self`. -/
def HWQueue.exec (self : HWQueue) (emitted : List Nat) : MethodCall :=
  let q' := self.appendCmd .exec emitted
  ⟨q', some q', none⟩

/-- `HWQueue.copy(dest, src, copy_size)`: `hcq_command`-wrapped, returns
`self`. -/
def HWQueue.copy (self : HWQueue) (emitted : List Nat) : MethodCall :=
  let q' := self.appendCmd .copy emitted
  ⟨q', some q', none⟩

/-- `HWQueue.update_signal(cmd_idx, signal, value)`: checks
`self.cmds_meta[cmd_idx] != "signal"`, raising on mismatch, else calls the
backend patcher `self._update_signal(cmd_idx, ...)` (abstracted as `patch`)
and returns `self`. -/
def HWQueue.update_signal (self : HWQueue) (patch : Nat → HWQueue → HWQueue) (cmd_idx : Nat) :
    MethodCall :=
  match self.cmds_meta[cmd_idx]? with
  | none => ⟨self, none, some .indexError⟩
  | some k =>
    if k ≠ CmdKind.signal then ⟨self, none, some (.commandKindMismatch cmd_idx .signal k)⟩
    else ⟨patch cmd_idx self, some (patch cmd_idx self), none⟩

/-- `HWQueue.update_wait(cmd_idx, signal, value)`: kind check against
`"wait"`, then the backend patcher, then `return self`. -/
def HWQueue.update_wait (self : HWQueue) (patch : Nat → HWQueue → HWQueue) (cmd_idx : Nat) :
    MethodCall :=
  match self.cmds_meta[cmd_idx]? with
  | none => ⟨self, none, some .indexError⟩
  | some k =>
    if k ≠ CmdKind.wait then ⟨self, none, some (.commandKindMismatch cmd_idx .wait k)⟩
    else ⟨patch cmd_idx self, some (patch cmd_idx self), none⟩

/-- `HWQueue.update_exec(cmd_idx, global_size, local_size)`: kind check
against `"exec"`, then the backend patcher, then `return self`. -/
def HWQueue.update_exec (self : HWQueue) (patch : Nat → HWQueue → HWQueue) (cmd_idx : Nat) :
    MethodCall :=
  match self.cmds_meta[cmd_idx]? with
  | none => ⟨self, none, some .indexError⟩
  | some k =>
    if k ≠ CmdKind.exec then ⟨self, none, some (.commandKindMismatch cmd_idx .exec k)⟩
    else ⟨patch cmd_idx self, some (patch cmd_idx self), none⟩

/-- `HWQueue.update_copy(cmd_idx, dest, src)`: kind check against `"copy"`,
then the backend patcher, then `return self`. -/
def HWQueue.update_copy (self : HWQueue) (patch : Nat → HWQueue → HWQueue) (cmd_idx : Nat) :
    MethodCall :=
  match self.cmds_meta[cmd_idx]? with
  | none => ⟨self, none, some .indexError⟩
  | some k =>
    if k ≠ CmdKind.copy then ⟨self, none, some (.commandKindMismatch cmd_idx .copy k)⟩
    else ⟨patch cmd_idx self, some (patch cmd_idx self), none⟩

/-- `HWQueue.submit(dev)`: `if self._q: self._submit(dev)` then
`return self`.  The backend submission `self._submit` mutates only the
device, abstracted as `sub`. -/
def HWQueue.submit {Dev : Type} (self : HWQueue) (sub : Dev → Dev) (dev : Dev) :
    MethodCall × Dev :=
  (⟨self, some self, none⟩, if self.q = [] then dev else sub dev)

/-- A queue built solely through the public command-appending methods,
starting from `HWQueue.__init__`: each element of `cmds` is the kind of the
method called and the words its backend emitter appended. -/
def HWQueue.buildQueue (cmds : List (CmdKind × List Nat)) : HWQueue :=
  cmds.foldl (fun acc c => acc.appendCmd c.1 c.2) HWQueue.init

/-! ## Signal wait (`HCQSignal.wait`)

`wait` polls a hardware-written memory cell against a wall clock.  Both are
modelled as oracle streams: `clock n` is the value of the n-th
`int(time.time() * 1000)` call (`clock 0` is `start_time`), and `sig n` is
the value of the n-th read of `self.value`.  Iteration `j` of the `while`
loop computes `time_spent = clock (j+1) - clock 0` and, inside the loop,
compares `sig j` against the target; the `raise` message performs one more
read of `self.value`.  A fuel bound makes the loop total; `outOfFuel` marks
runs the fuel could not finish. -/

/-- Outcome of `HCQSignal.wait`: normal return, or the
`RuntimeError(f"Wait timeout: {timeout} ms! (the signal is not set to
{value}, but {self.value})")` carrying the timeout, the expected value and
the observed value. -/
inductive WaitResult where
  | ok
  | timeoutErr (timeout : Int) (expected observed : Nat)
  | outOfFuel
deriving DecidableEq, Repr

/-- The `while` loop of `HCQSignal.wait`, starting at iteration `j`. -/
def HCQSignal.waitLoop (clock : Nat → Int) (sig : Nat → Nat) (value : Nat) (timeout : Int) :
    Nat → Nat → WaitResult
  | _, 0 => .outOfFuel
  | j, fuel + 1 =>
    if clock (j + 1) - clock 0 < timeout then
      if value ≤ sig j then .ok
      else HCQSignal.waitLoop clock sig value timeout (j + 1) fuel
    else .timeoutErr timeout value (sig j)

/-- `HCQSignal.wait(value, timeout)`: run the loop from iteration 0. -/
def HCQSignal.wait (clock : Nat → Int) (sig : Nat → Nat) (value : Nat) (timeout : Int)
    (fuel : Nat) : WaitResult :=
  HCQSignal.waitLoop clock sig value timeout 0 fuel

/-- The default of the `timeout` parameter:
`getenv("HCQDEV_WAIT_TIMEOUT_MS", 30000)` — the environment variable's
value when set, else 30000. -/
def HCQSignal.default_timeout (env : Option Int) : Int :=
  env.getD 30000

/-! ## Kernargs bump allocator (`HCQCompiled._alloc_kernargs`) -/

/-- The device state `_alloc_kernargs` reads and writes: the kernargs
page's base address `self.kernargs_page.va_addr`, its size
`self.kernargs_page.size`, and the bump pointer `self.kernargs_ptr`.
`Int` mirrors Python's unbounded integers exactly (including the
subtraction in the wrap test). -/
structure KernargsDev where
  va_addr : Int
  size : Int
  kernargs_ptr : Int
deriving DecidableEq, Repr

/-- `HCQCompiled._alloc_kernargs(alloc_size)`: reset the bump pointer to
the base when `self.kernargs_ptr >= va_addr + size - alloc_size`, then
return the current pointer and advance it by `alloc_size`. -/
def HCQCompiled.alloc_kernargs (self : KernargsDev) (alloc_size : Int) : Int × KernargsDev :=
  let p := if self.kernargs_ptr ≥ self.va_addr + self.size - alloc_size
           then self.va_addr else self.kernargs_ptr
  (p, { self with kernargs_ptr := p + alloc_size })

/-! ## Timeline wrap (`HCQCompiled.synchronize`, `_wrap_timeline_signal`) -/

/-- An `HCQSignal` object as `_wrap_timeline_signal` sees it: its base
address (object identity) and its 64-bit value cell. -/
structure SignalState where
  base_addr : Nat
  value : Nat
deriving DecidableEq, Repr

/-- The device state read and written by `synchronize` and
`_wrap_timeline_signal`: the active and shadow timeline signals,
`timeline_value`, the allocator's staging ring length `len(self.b)` and its
`b_timeline` vector, plus two fields (`device_id`, `kernargs_ptr`) the wrap
must not touch. -/
structure HCQCompiledState where
  timeline_signal : SignalState
  shadow_timeline_signal : SignalState
  timeline_value : Nat
  b_len : Nat
  b_timeline : List Nat
  device_id : Nat
  kernargs_ptr : Nat
deriving DecidableEq, Repr

/-- `HCQCompiled._wrap_timeline_signal()`: swap the active and shadow
signals and set `timeline_value = 1`, then zero the (new) active signal's
value cell (the old shadow object), then reset the allocator's
`b_timeline` to `[0] * len(self.allocator.b)`. -/
def HCQCompiled.wrap_timeline_signal (self : HCQCompiledState) : HCQCompiledState :=
  { self with
    timeline_signal := { self.shadow_timeline_signal with value := 0 },
    shadow_timeline_signal := self.timeline_signal,
    timeline_value := 1,
    b_timeline := List.replicate self.b_len 0 }

/-- `HCQCompiled.synchronize()` after its `timeline_signal.wait` has
returned normally (and with profiling off): wrap the timeline iff
`self.timeline_value > (1 << 31)`. -/
def HCQCompiled.synchronize (self : HCQCompiledState) : HCQCompiledState :=
  if 1 <<< 31 < self.timeline_value then HCQCompiled.wrap_timeline_signal self else self

/-! ## Staging ring (`HCQAllocator`) -/

/-- The allocator state used by `copy_from_disk`'s `_get_temp_buf`
callback: buffer addresses `[buf.va_addr for buf in self.b]`, the
`b_timeline` vector and the ring cursor `b_next`. -/
structure HCQAllocState where
  b_addr : List Nat
  b_timeline : List Nat
  b_next : Nat
deriving DecidableEq, Repr

/-- The `_get_temp_buf` closure inside `HCQAllocator.copy_from_disk`: if
`self.b_timeline[(self.b_next + 1) % len(self.b)] <=
self.dev.timeline_signal.value` then set that entry to `1 << 64`, advance
`b_next` to `(b_next + 1) % len(self.b)` and return
`(self.b[self.b_next].va_addr, self.b_next)`; otherwise return `None` and
change nothing. -/
def HCQAllocator.get_temp_buf (self : HCQAllocState) (signal_value : Nat) :
    Option (Nat × Nat) × HCQAllocState :=
  let nxt := (self.b_next + 1) % self.b_addr.length
  if self.b_timeline.getD nxt 0 ≤ signal_value then
    let self' : HCQAllocState :=
      { self with b_timeline := self.b_timeline.set nxt (1 <<< 64), b_next := nxt }
    (some (self'.b_addr.getD self'.b_next 0, self'.b_next), self')
  else (none, self)

/-- The device/allocator state threaded through `_copyin`'s loop. -/
structure CopyinState where
  b_next : Nat
  b_timeline : List Nat
  timeline_value : Nat
deriving DecidableEq, Repr

/-- One iteration of `_copyin`'s loop, as observable effects: the staging
slot used, the host-side `timeline_signal.wait(self.b_timeline[b_next])`
target, and the submitted copy queue
`wait(timeline, q_wait); copy(dest, src, size); signal(timeline, q_signal)`. -/
structure CopyinEvent where
  slot : Nat
  host_wait : Nat
  dest : Nat
  src : Nat
  size : Nat
  q_wait : Nat
  q_signal : Nat
deriving DecidableEq, Repr

/-- The loop `for i in range(0, nbytes, bsz)` of `HCQAllocator._copyin`,
where `bsz = self.b[0].size` (all staging buffers are allocated with the
same `batch_size`), `nbuf = len(self.b)`, `b_addr` the staging buffers'
addresses and `dest_addr = dest.va_addr`.  Each iteration advances
`b_next`, waits on `self.b_timeline[b_next]`, copies
`lsize = min(bsz, nbytes - i)` bytes, builds and submits the copy queue,
records the slot's timeline value and increments `timeline_value`.  `fuel`
bounds the iteration count; `nbytes` iterations always suffice when
`0 < bsz`. -/
def HCQAllocator.copyinLoop (bsz nbuf dest_addr : Nat) (b_addr : List Nat) (nbytes : Nat) :
    Nat → Nat → CopyinState → List CopyinEvent × CopyinState
  | _, 0, st => ([], st)
  | i, fuel + 1, st =>
    if i < nbytes then
      let bn := (st.b_next + 1) % nbuf
      let lsize := min bsz (nbytes - i)
      let ev : CopyinEvent :=
        { slot := bn, host_wait := st.b_timeline.getD bn 0,
          dest := dest_addr + i, src := b_addr.getD bn 0, size := lsize,
          q_wait := st.timeline_value - 1, q_signal := st.timeline_value }
      let st' : CopyinState :=
        { b_next := bn, b_timeline := st.b_timeline.set bn st.timeline_value,
          timeline_value := st.timeline_value + 1 }
      let rest := HCQAllocator.copyinLoop bsz nbuf dest_addr b_addr nbytes (i + bsz) fuel st'
      (ev :: rest.1, rest.2)
    else ([], st)

/-- `HCQAllocator._copyin(dest, src)` for a source of `nbytes` bytes
(profiling off): run the chunk loop from `i = 0`. -/
def HCQAllocator.copyin (bsz nbuf dest_addr : Nat) (b_addr : List Nat) (nbytes : Nat)
    (st : CopyinState) : List CopyinEvent × CopyinState :=
  HCQAllocator.copyinLoop bsz nbuf dest_addr b_addr nbytes 0 nbytes st

/-! ## Peer transfer (`HCQAllocator._transfer`) -/

/-- A command enqueued on a queue during `_transfer`; signals are
identified by the id of the device whose timeline they are. -/
inductive QCmd where
  | wait (sig_dev : Nat) (value : Nat)
  | signal (sig_dev : Nat) (value : Nat)
  | copy (dest src size : Nat)
deriving DecidableEq, Repr

/-- The per-device state `_transfer` touches: an identity and the
`timeline_value` counter. -/
structure TransferDev where
  id : Nat
  timeline_value : Nat
deriving DecidableEq, Repr

/-- `HCQAllocator._transfer(dest, src, sz, src_dev, dest_dev)` (profiling
off): returns (copy-queue commands submitted on `src_dev`, compute-queue
commands submitted on `dest_dev` — empty when the devices are the same
object, mirroring `if src_dev != dest_dev`, — final `src_dev`, final
`dest_dev`).  Distinct device objects have distinct ids; when the ids are
equal the two arguments alias one object, so the updated `src_dev` is also
the updated `dest_dev`. -/
def HCQAllocator.transfer (dest src sz : Nat) (src_dev dest_dev : TransferDev) :
    List QCmd × List QCmd × TransferDev × TransferDev :=
  let copyq := [QCmd.wait src_dev.id (src_dev.timeline_value - 1),
                QCmd.wait dest_dev.id (dest_dev.timeline_value - 1),
                QCmd.copy dest src sz,
                QCmd.signal src_dev.id src_dev.timeline_value]
  let src' : TransferDev := { src_dev with timeline_value := src_dev.timeline_value + 1 }
  if src_dev.id = dest_dev.id then (copyq, [], src', src')
  else
    let compq := [QCmd.wait src'.id (src'.timeline_value - 1),
                  QCmd.wait dest_dev.id (dest_dev.timeline_value - 1),
                  QCmd.signal dest_dev.id dest_dev.timeline_value]
    (copyq, compq, src', { dest_dev with timeline_value := dest_dev.timeline_value + 1 })

/-! ## Claim theorems -/

/-- Claim C1: for every queue and every in-range index, each of
`update_signal`, `update_wait`, `update_exec`, `update_copy` fails with the
command-kind-mismatch error and leaves the queue's word stream and metadata
vectors unchanged when the recorded kind at the index differs from the
operation's expected kind, and invokes the backend patcher and returns the
queue when the kind matches. -/
theorem HWQueue.update_kind_guard (q : HWQueue) (patch : Nat → HWQueue → HWQueue) (idx : Nat)
    (k : CmdKind) (h : q.cmds_meta[idx]? = some k) :
    ((k ≠ CmdKind.signal → q.update_signal patch idx =
        ⟨q, none, some (.commandKindMismatch idx .signal k)⟩) ∧
     (k = CmdKind.signal → q.update_signal patch idx =
        ⟨patch idx q, some (patch idx q), none⟩)) ∧
    ((k ≠ CmdKind.wait → q.update_wait patch idx =
        ⟨q, none, some (.commandKindMismatch idx .wait k)⟩) ∧
     (k = CmdKind.wait → q.update_wait patch idx =
        ⟨patch idx q, some (patch idx q), none⟩)) ∧
    ((k ≠ CmdKind.exec → q.update_exec patch idx =
        ⟨q, none, some (.commandKindMismatch idx .exec k)⟩) ∧
     (k = CmdKind.exec → q.update_exec patch idx =
        ⟨patch idx q, some (patch idx q), none⟩)) ∧
    ((k ≠ CmdKind.copy → q.update_copy patch idx =
        ⟨q, none, some (.commandKindMismatch idx .copy k)⟩) ∧
     (k = CmdKind.copy → q.update_copy patch idx =
        ⟨patch idx q, some (patch idx q), none⟩)) := by
  refine ⟨⟨?_, ?_⟩, ⟨?_, ?_⟩, ⟨?_, ?_⟩, ⟨?_, ?_⟩⟩ <;> intro hk <;>
    simp [HWQueue.update_signal, HWQueue.update_wait, HWQueue.update_exec,
          HWQueue.update_copy, h, hk]

/-- Witness for C1: on a queue whose commands are `[signal, exec]`,
`update_signal` at index 1 fails with the mismatch error and leaves the
queue unchanged, and at index 0 invokes the patcher and returns the queue. -/
theorem HWQueue.update_kind_guard_witness :
    HWQueue.update_signal ⟨[1,2,3], [0,2], [2,1], [CmdKind.signal, CmdKind.exec]⟩
        (fun _ q => q) 1 =
      ⟨⟨[1,2,3], [0,2], [2,1], [CmdKind.signal, CmdKind.exec]⟩, none,
       some (QueueError.commandKindMismatch 1 CmdKind.signal CmdKind.exec)⟩ ∧
    HWQueue.update_signal ⟨[1,2,3], [0,2], [2,1], [CmdKind.signal, CmdKind.exec]⟩
        (fun _ q => q) 0 =
      ⟨⟨[1,2,3], [0,2], [2,1], [CmdKind.signal, CmdKind.exec]⟩,
       some ⟨[1,2,3], [0,2], [2,1], [CmdKind.signal, CmdKind.exec]⟩, none⟩ :=
  ⟨(HWQueue.update_kind_guard ⟨[1,2,3], [0,2], [2,1], [CmdKind.signal, CmdKind.exec]⟩
      (fun _ q => q) 1 CmdKind.exec rfl).1.1 (by decide),
   (HWQueue.update_kind_guard ⟨[1,2,3], [0,2], [2,1], [CmdKind.signal, CmdKind.exec]⟩
      (fun _ q => q) 0 CmdKind.signal rfl).1.2 rfl⟩

/-- Counterexample for C3: with arena base 0, arena size 16 and bump
pointer 10, a request of size 6 has `ptr + size = 16 = base + arena_size`,
which does not exceed the end, yet the pointer is reset: the call returns
the base 0 (not the pointer 10) and leaves the new pointer at 6. -/
theorem HCQCompiled.alloc_kernargs_strict_wrap_cex :
    (HCQCompiled.alloc_kernargs ⟨0, 16, 10⟩ 6).1 = 0 ∧
    (HCQCompiled.alloc_kernargs ⟨0, 16, 10⟩ 6).2.kernargs_ptr = 6 ∧
    ¬ ((10 : Int) + 6 > 0 + 16) := by
  decide

/-- Claim C3 (amended): the bump pointer is reset to the arena base if and
only if `ptr + size` reaches or exceeds `base + arena_size` (the source
tests `>=`, not `>`); the call then returns the (possibly reset) current
pointer and advances the pointer by `size`. -/
theorem HCQCompiled.alloc_kernargs_spec (d : KernargsDev) (s : Int) :
    (d.va_addr + d.size ≤ d.kernargs_ptr + s →
      HCQCompiled.alloc_kernargs d s = (d.va_addr, { d with kernargs_ptr := d.va_addr + s })) ∧
    (d.kernargs_ptr + s < d.va_addr + d.size →
      HCQCompiled.alloc_kernargs d s =
        (d.kernargs_ptr, { d with kernargs_ptr := d.kernargs_ptr + s })) := by
  constructor <;> intro h <;> simp only [HCQCompiled.alloc_kernargs]
  · rw [if_pos (by omega)]
  · rw [if_neg (by omega)]

/-- Witness for C3: the wrapping call (16 ≤ 10 + 6) and a non-wrapping
call (10 + 2 < 16) behave as the amended claim states. -/
theorem HCQCompiled.alloc_kernargs_spec_witness :
    HCQCompiled.alloc_kernargs ⟨0, 16, 10⟩ 6 = (0, ⟨0, 16, 6⟩) ∧
    HCQCompiled.alloc_kernargs ⟨0, 16, 10⟩ 2 = (10, ⟨0, 16, 12⟩) := by
  refine ⟨?_, ?_⟩
  · have := (HCQCompiled.alloc_kernargs_spec ⟨0, 16, 10⟩ 6).1 (by decide)
    simpa using this
  · have := (HCQCompiled.alloc_kernargs_spec ⟨0, 16, 10⟩ 2).2 (by decide)
    simpa using this

/-- Counterexample for C4: `submit` does return the queue object itself
(the source ends with `return self`), refuting the claim's assertion that
`submit` does not return the queue. -/
theorem HWQueue.submit_returns_queue_cex :
    (HWQueue.submit HWQueue.init (fun d : Nat => d) 0).1.ret = some HWQueue.init := rfl

/-- Claim C4 (amended): every public queue-builder operation that appends
or patches a command returns the queue object itself for chaining, and
`submit` likewise returns the queue (not, as claimed, nothing). -/
theorem HWQueue.chaining_returns (q : HWQueue) (ws : List Nat)
    (patch : Nat → HWQueue → HWQueue) (idx : Nat) (Dev : Type) (sub : Dev → Dev) (dev : Dev) :
    (q.signal ws).ret = some (q.signal ws).state ∧
    (q.wait ws).ret = some (q.wait ws).state ∧
    (q.timestamp ws).ret = some (q.timestamp ws).state ∧
    (q.memory_barrier ws).ret = some (q.memory_barrier ws).state ∧
    (q.exec ws).ret = some (q.exec ws).state ∧
    (q.copy ws).ret = some (q.copy ws).state ∧
    (q.cmds_meta[idx]? = some CmdKind.signal →
      (q.update_signal patch idx).ret = some (q.update_signal patch idx).state) ∧
    (q.cmds_meta[idx]? = some CmdKind.wait →
      (q.update_wait patch idx).ret = some (q.update_wait patch idx).state) ∧
    (q.cmds_meta[idx]? = some CmdKind.exec →
      (q.update_exec patch idx).ret = some (q.update_exec patch idx).state) ∧
    (q.cmds_meta[idx]? = some CmdKind.copy →
      (q.update_copy patch idx).ret = some (q.update_copy patch idx).state) ∧
    (q.submit sub dev).1.ret = some (q.submit sub dev).1.state := by
  refine ⟨rfl, rfl, rfl, rfl, rfl, rfl, ?_, ?_, ?_, ?_, rfl⟩ <;> intro h <;>
    simp [HWQueue.update_signal, HWQueue.update_wait, HWQueue.update_exec,
          HWQueue.update_copy, h]

/-- Witness for C4: a successful `update_signal` and a `submit` both return
the resulting queue object on a concrete queue. -/
theorem HWQueue.chaining_returns_witness :
    (HWQueue.update_signal ⟨[5], [0], [1], [CmdKind.signal]⟩ (fun _ q => q) 0).ret =
      some (HWQueue.update_signal ⟨[5], [0], [1], [CmdKind.signal]⟩ (fun _ q => q) 0).state ∧
    (HWQueue.submit ⟨[5], [0], [1], [CmdKind.signal]⟩ (fun d : Nat => d) 0).1.ret =
      some (HWQueue.submit ⟨[5], [0], [1], [CmdKind.signal]⟩ (fun d : Nat => d) 0).1.state := by
  have h := HWQueue.chaining_returns ⟨[5], [0], [1], [CmdKind.signal]⟩ []
    (fun _ q => q) 0 Nat (fun d => d) 0
  exact ⟨h.2.2.2.2.2.2.1 rfl, h.2.2.2.2.2.2.2.2.2.2⟩

/-- Claim C6: every transfer puts exactly
`wait(src.timeline, src.tv − 1); wait(dest.timeline, dest.tv − 1);
copy(dest, src, size); signal(src.timeline, src.tv)` on the source device's
copy queue and advances the source timeline by 1; when the devices are
distinct, the destination device's compute queue additionally receives a
wait on the source timeline at exactly the value just signaled, a wait on
its own previous timeline value, and a signal advancing its own timeline
by 1. -/
theorem HCQAllocator.transfer_spec (dest src sz : Nat) (sd dd : TransferDev) :
    (HCQAllocator.transfer dest src sz sd dd).1 =
      [QCmd.wait sd.id (sd.timeline_value - 1), QCmd.wait dd.id (dd.timeline_value - 1),
       QCmd.copy dest src sz, QCmd.signal sd.id sd.timeline_value] ∧
    (HCQAllocator.transfer dest src sz sd dd).2.2.1.timeline_value = sd.timeline_value + 1 ∧
    (sd.id ≠ dd.id →
      (HCQAllocator.transfer dest src sz sd dd).2.1 =
        [QCmd.wait sd.id sd.timeline_value, QCmd.wait dd.id (dd.timeline_value - 1),
         QCmd.signal dd.id dd.timeline_value] ∧
      (HCQAllocator.transfer dest src sz sd dd).2.2.2.timeline_value =
        dd.timeline_value + 1) := by
  by_cases hid : sd.id = dd.id <;>
    simp [HCQAllocator.transfer, hid]

/-- Witness for C6: a concrete cross-device transfer (device 0 at timeline
4, device 1 at timeline 9) issues exactly the claimed queues and advances
both timelines by 1. -/
theorem HCQAllocator.transfer_spec_witness :
    (HCQAllocator.transfer 500 600 64 ⟨0, 4⟩ ⟨1, 9⟩).1 =
      [QCmd.wait 0 3, QCmd.wait 1 8, QCmd.copy 500 600 64, QCmd.signal 0 4] ∧
    (HCQAllocator.transfer 500 600 64 ⟨0, 4⟩ ⟨1, 9⟩).2.1 =
      [QCmd.wait 0 4, QCmd.wait 1 8, QCmd.signal 1 9] ∧
    (HCQAllocator.transfer 500 600 64 ⟨0, 4⟩ ⟨1, 9⟩).2.2.1.timeline_value = 5 ∧
    (HCQAllocator.transfer 500 600 64 ⟨0, 4⟩ ⟨1, 9⟩).2.2.2.timeline_value = 10 := by
  have h := HCQAllocator.transfer_spec 500 600 64 ⟨0, 4⟩ ⟨1, 9⟩
  exact ⟨h.1, (h.2.2 (by decide)).1, h.2.1, (h.2.2 (by decide)).2⟩

/-- Claim C7: when `synchronize` completes its wait with
`timeline_value > 2^31`, the wrap runs and the post-state is exactly: the
active and shadow signals swapped, the new active signal's value 0, the
timeline value 1, every staging-ring `b_timeline` entry 0, and every other
device field unchanged. -/
theorem HCQCompiled.synchronize_wrap_spec (d : HCQCompiledState)
    (h : 1 <<< 31 < d.timeline_value) :
    HCQCompiled.synchronize d =
      { timeline_signal := ⟨d.shadow_timeline_signal.base_addr, 0⟩,
        shadow_timeline_signal := d.timeline_signal,
        timeline_value := 1,
        b_len := d.b_len,
        b_timeline := List.replicate d.b_len 0,
        device_id := d.device_id,
        kernargs_ptr := d.kernargs_ptr } := by
  unfold HCQCompiled.synchronize
  rw [if_pos h]
  rfl

/-- Witness for C7: a device just past the wrap threshold is wrapped to
exactly the claimed post-state (the two signals' base addresses swap, the
old active keeps its value 77 as the new shadow, the ring resets). -/
theorem HCQCompiled.synchronize_wrap_spec_witness :
    HCQCompiled.synchronize ⟨⟨1, 77⟩, ⟨2, 33⟩, 1 <<< 31 + 5, 3, [4, 5, 6], 7, 99⟩ =
      ⟨⟨2, 0⟩, ⟨1, 77⟩, 1, 3, [0, 0, 0], 7, 99⟩ := by
  rw [HCQCompiled.synchronize_wrap_spec _ (by decide)]
  rfl

/-- Counterexample for C2: on a two-slot ring with both timelines 0 and
signal value 0, the callback reserves the next slot by writing `1 << 64`
= 2^64 into its `b_timeline` entry — not 2^64 − 1 as the claim states. -/
theorem HCQAllocator.get_temp_buf_sentinel_cex :
    (HCQAllocator.get_temp_buf ⟨[100, 200], [0, 0], 0⟩ 0).2.b_timeline.getD 1 0 = 1 <<< 64 ∧
    (1 <<< 64 : Nat) ≠ 2 ^ 64 - 1 := by
  decide

/-- Claim C2 (amended): the temp-buffer callback returns the next ring
slot's address and index iff `b_timeline[(b_next+1) mod N] ≤
timeline_signal.value`, in which case it marks that slot reserved by
setting its `b_timeline` entry to 2^64 (the source writes `1 << 64`, one
more than the claimed 2^64 − 1) and advances `b_next`; otherwise it
returns nothing and changes nothing. -/
theorem HCQAllocator.get_temp_buf_spec (st : HCQAllocState) (sv : Nat) :
    (st.b_timeline.getD ((st.b_next + 1) % st.b_addr.length) 0 ≤ sv →
      HCQAllocator.get_temp_buf st sv =
        (some (st.b_addr.getD ((st.b_next + 1) % st.b_addr.length) 0,
               (st.b_next + 1) % st.b_addr.length),
         { st with
             b_timeline := st.b_timeline.set ((st.b_next + 1) % st.b_addr.length) (1 <<< 64),
             b_next := (st.b_next + 1) % st.b_addr.length })) ∧
    (sv < st.b_timeline.getD ((st.b_next + 1) % st.b_addr.length) 0 →
      HCQAllocator.get_temp_buf st sv = (none, st)) := by
  constructor <;> intro h <;> simp only [HCQAllocator.get_temp_buf]
  · rw [if_pos h]
  · rw [if_neg (not_le.mpr h)]

/-- Witness for C2: on a free next slot the callback returns its address
and index and reserves it at 2^64; on a busy next slot it returns
nothing. -/
theorem HCQAllocator.get_temp_buf_spec_witness :
    HCQAllocator.get_temp_buf ⟨[100, 200], [0, 0], 0⟩ 0 =
      (some (200, 1), ⟨[100, 200], [0, 1 <<< 64], 1⟩) ∧
    HCQAllocator.get_temp_buf ⟨[100, 200], [0, 5], 0⟩ 3 =
      (none, ⟨[100, 200], [0, 5], 0⟩) := by
  refine ⟨?_, ?_⟩
  · exact ((HCQAllocator.get_temp_buf_spec ⟨[100, 200], [0, 0], 0⟩ 0).1 (by decide)).trans
      (by decide)
  · exact (HCQAllocator.get_temp_buf_spec ⟨[100, 200], [0, 5], 0⟩ 3).2 (by decide)

/-- If some poll within the timeout observes the target, the wait loop
returns normally. -/
theorem HCQSignal.waitLoop_ok (clock : Nat → Int) (sig : Nat → Nat) (value : Nat)
    (timeout : Int) :
    ∀ (k j fuel : Nat), k < fuel →
      (∀ i, i ≤ k → clock (j + i + 1) - clock 0 < timeout) →
      value ≤ sig (j + k) →
      HCQSignal.waitLoop clock sig value timeout j fuel = .ok := by
  intro k
  induction k with
  | zero =>
    intro j fuel hf hguard hsig
    match fuel, hf with
    | fuel + 1, _ =>
      simp only [HCQSignal.waitLoop]
      rw [if_pos (by simpa using hguard 0 (Nat.le_refl 0))]
      rw [if_pos (by simpa using hsig)]
  | succ k ih =>
    intro j fuel hf hguard hsig
    match fuel, hf with
    | fuel + 1, hf =>
      simp only [HCQSignal.waitLoop]
      rw [if_pos (by simpa using hguard 0 (Nat.zero_le _))]
      by_cases hs : value ≤ sig j
      · rw [if_pos hs]
      · rw [if_neg hs]
        apply ih (j + 1) fuel (Nat.lt_of_succ_lt_succ hf)
        · intro i hi
          have h := hguard (i + 1) (Nat.succ_le_succ hi)
          have e : j + (i + 1) + 1 = j + 1 + i + 1 := by omega
          rw [e] at h
          exact h
        · have e : j + (k + 1) = j + 1 + k := by omega
          rw [e] at hsig
          exact hsig

/-- If every poll strictly before `k` is within the timeout but observes a
value below the target, and poll `k`'s clock read is at or past the
timeout, the loop raises the timeout error with the expected value and the
observed value. -/
theorem HCQSignal.waitLoop_timeout (clock : Nat → Int) (sig : Nat → Nat) (value : Nat)
    (timeout : Int) :
    ∀ (k j fuel : Nat), k < fuel →
      (∀ i, i < k → clock (j + i + 1) - clock 0 < timeout ∧ sig (j + i) < value) →
      timeout ≤ clock (j + k + 1) - clock 0 →
      HCQSignal.waitLoop clock sig value timeout j fuel =
        .timeoutErr timeout value (sig (j + k)) := by
  intro k
  induction k with
  | zero =>
    intro j fuel hf hpre hto
    match fuel, hf with
    | fuel + 1, _ =>
      simp only [HCQSignal.waitLoop]
      rw [if_neg (by simp only [Nat.add_zero] at hto; exact not_lt.mpr hto)]
      simp
  | succ k ih =>
    intro j fuel hf hpre hto
    match fuel, hf with
    | fuel + 1, hf =>
      simp only [HCQSignal.waitLoop]
      have h0 := hpre 0 (Nat.succ_pos k)
      rw [if_pos (by simpa using h0.1)]
      rw [if_neg (by simpa using not_le.mpr h0.2)]
      have hrec := ih (j + 1) fuel (Nat.lt_of_succ_lt_succ hf)
        (fun i hi => by
          have h := hpre (i + 1) (Nat.succ_lt_succ hi)
          refine ⟨?_, ?_⟩
          · have e : j + (i + 1) + 1 = j + 1 + i + 1 := by omega
            rw [e] at h
            exact h.1
          · have e : j + (i + 1) = j + 1 + i := by omega
            rw [e] at h
            exact h.2)
        (by
          have e : j + (k + 1) + 1 = j + 1 + k + 1 := by omega
          rw [e] at hto
          exact hto)
      have e : j + 1 + k = j + (k + 1) := by omega
      rw [e] at hrec
      exact hrec

/-- Whenever the loop exits with the timeout error, the error's first two
payloads are the timeout and the expected target value. -/
theorem HCQSignal.waitLoop_timeoutErr_payload (clock : Nat → Int) (sig : Nat → Nat)
    (value : Nat) (timeout : Int) :
    ∀ (fuel j : Nat) (t : Int) (e o : Nat),
      HCQSignal.waitLoop clock sig value timeout j fuel = .timeoutErr t e o →
      t = timeout ∧ e = value := by
  intro fuel
  induction fuel with
  | zero =>
    intro j t e o h
    simp only [HCQSignal.waitLoop] at h
    exact WaitResult.noConfusion h
  | succ fuel ih =>
    intro j t e o h
    simp only [HCQSignal.waitLoop] at h
    by_cases hc : clock (j + 1) - clock 0 < timeout
    · rw [if_pos hc] at h
      by_cases hs : value ≤ sig j
      · rw [if_pos hs] at h
        exact WaitResult.noConfusion h
      · rw [if_neg hs] at h
        exact ih (j + 1) t e o h
    · rw [if_neg hc] at h
      cases h
      exact ⟨rfl, rfl⟩

/-- Claim C8: `Signal.wait(target, timeout_ms)` returns normally if a poll
within the timeout observes the signal at or above the target; if instead
the polls stay below the target until the clock reaches the timeout it
fails with the error carrying the expected value, the observed value and
the timeout (any timeout error carries exactly the expected value and the
timeout); the default timeout is 30000 ms, overridden by the
`HCQDEV_WAIT_TIMEOUT_MS` environment value when set. -/
theorem HCQSignal.wait_spec :
    (∀ (clock : Nat → Int) (sig : Nat → Nat) (value : Nat) (timeout : Int) (fuel k : Nat),
        k < fuel → (∀ i, i ≤ k → clock (i + 1) - clock 0 < timeout) → value ≤ sig k →
        HCQSignal.wait clock sig value timeout fuel = .ok) ∧
    (∀ (clock : Nat → Int) (sig : Nat → Nat) (value : Nat) (timeout : Int) (fuel k : Nat),
        k < fuel → (∀ i, i < k → clock (i + 1) - clock 0 < timeout ∧ sig i < value) →
        timeout ≤ clock (k + 1) - clock 0 →
        HCQSignal.wait clock sig value timeout fuel = .timeoutErr timeout value (sig k)) ∧
    (∀ (clock : Nat → Int) (sig : Nat → Nat) (value : Nat) (timeout t : Int) (fuel e o : Nat),
        HCQSignal.wait clock sig value timeout fuel = .timeoutErr t e o →
        t = timeout ∧ e = value) ∧
    HCQSignal.default_timeout none = 30000 ∧
    (∀ t, HCQSignal.default_timeout (some t) = t) := by
  refine ⟨?_, ?_, ?_, rfl, fun t => rfl⟩
  · intro clock sig value timeout fuel k hk hg hs
    exact HCQSignal.waitLoop_ok clock sig value timeout k 0 fuel hk
      (fun i hi => by simpa using hg i hi) (by simpa using hs)
  · intro clock sig value timeout fuel k hk hg hto
    have := HCQSignal.waitLoop_timeout clock sig value timeout k 0 fuel hk
      (fun i hi => by simpa using hg i hi) (by simpa using hto)
    simpa using this
  · intro clock sig value timeout t fuel e o h
    exact HCQSignal.waitLoop_timeoutErr_payload clock sig value timeout fuel 0 t e o h

/-- Witness for C8: with a millisecond-per-poll clock, a signal stuck at 7
satisfies a wait for 5 within 100 ms; a wait for 20 with a 3 ms timeout
fails with the error carrying (timeout 3, expected 20, observed 9); the
default timeout is 30000. -/
theorem HCQSignal.wait_spec_witness :
    HCQSignal.wait (fun n => (n : Int)) (fun _ => 7) 5 100 50 = .ok ∧
    HCQSignal.wait (fun n => (n : Int)) (fun _ => 9) 20 3 50 = .timeoutErr 3 20 9 ∧
    HCQSignal.default_timeout none = 30000 := by
  refine ⟨?_, ?_, HCQSignal.wait_spec.2.2.2.1⟩
  · exact HCQSignal.wait_spec.1 (fun n => (n : Int)) (fun _ => 7) 5 100 50 0 (by decide)
      (fun i hi => by
        have : i = 0 := Nat.le_zero.mp hi
        subst this
        decide)
      (by decide)
  · exact HCQSignal.wait_spec.2.1 (fun n => (n : Int)) (fun _ => 9) 20 3 50 2 (by decide)
      (by decide) (by decide)

/-- Claim C10: with a non-positive timeout and a non-decreasing clock, the
wait raises the timeout error immediately, for every signal stream — in
particular even when the signal's value already meets or exceeds the
target — because the value comparison sits inside the polling loop, whose
guard fails on the first check. -/
theorem HCQSignal.wait_nonpositive_timeout (clock : Nat → Int) (sig : Nat → Nat) (value : Nat)
    (timeout : Int) (fuel : Nat) (ht : timeout ≤ 0) (hc : clock 0 ≤ clock 1) :
    HCQSignal.wait clock sig value timeout (fuel + 1) = .timeoutErr timeout value (sig 0) := by
  unfold HCQSignal.wait
  simp only [HCQSignal.waitLoop]
  rw [if_neg (by simp only [Nat.zero_add]; omega)]

/-- Witness for C10: a signal already at 10 with target 3 and timeout 0
still raises the timeout error observing 10. -/
theorem HCQSignal.wait_nonpositive_timeout_witness :
    HCQSignal.wait (fun _ => 0) (fun _ => 10) 3 0 5 = .timeoutErr 0 3 10 :=
  HCQSignal.wait_nonpositive_timeout (fun _ => 0) (fun _ => 10) 3 0 4 (by decide) (by decide)

/-- Well-formedness of the append-and-record metadata: the three vectors
have equal length, a command-less queue has an empty word stream, the
first offset is 0, consecutive offsets differ by the recorded length, and
the last offset plus the last length is the stream length. -/
def HWQueue.wf (Q : HWQueue) : Prop :=
  Q.cmds_offset.length = Q.cmds_len.length ∧
  Q.cmds_offset.length = Q.cmds_meta.length ∧
  (Q.cmds_offset = [] → Q.q = []) ∧
  Q.cmds_offset.getD 0 0 = 0 ∧
  (∀ i, i + 1 < Q.cmds_offset.length →
      Q.cmds_offset.getD i 0 + Q.cmds_len.getD i 0 = Q.cmds_offset.getD (i + 1) 0) ∧
  (∀ n, Q.cmds_offset.length = n + 1 →
      Q.cmds_offset.getD n 0 + Q.cmds_len.getD n 0 = Q.q.length)

/-- The empty queue is well-formed. -/
theorem HWQueue.wf_init : HWQueue.init.wf :=
  ⟨rfl, rfl, fun _ => rfl, rfl,
   fun i hi => absurd hi (by simp [HWQueue.init]),
   fun n hn => absurd hn (by simp [HWQueue.init])⟩

/-- The append-and-record protocol preserves well-formedness. -/
theorem HWQueue.wf_appendCmd (Q : HWQueue) (h : Q.wf) (k : CmdKind) (ws : List Nat) :
    (Q.appendCmd k ws).wf := by
  obtain ⟨h1, h2, h3, h4, h5, h6⟩ := h
  refine ⟨?_, ?_, ?_, ?_, ?_, ?_⟩
  · simp [HWQueue.appendCmd, h1]
  · simp [HWQueue.appendCmd, h2]
  · simp [HWQueue.appendCmd]
  · cases ho : Q.cmds_offset with
    | nil =>
      have hq : Q.q = [] := h3 ho
      simp [HWQueue.appendCmd, ho, hq]
    | cons a l =>
      simp only [HWQueue.appendCmd]
      rw [List.getD_append _ _ _ _ (by simp [ho])]
      exact h4
  · intro i hi
    simp only [HWQueue.appendCmd, List.length_append, List.length_singleton] at hi ⊢
    by_cases hlt : i + 1 < Q.cmds_offset.length
    · rw [List.getD_append _ _ _ _ (by omega), List.getD_append _ _ _ _ (by omega),
          List.getD_append _ _ _ _ hlt]
      exact h5 i hlt
    · have hii : Q.cmds_offset.length = i + 1 := by omega
      rw [List.getD_append _ _ _ _ (by omega), List.getD_append _ _ _ _ (by omega),
          List.getD_append_right _ _ _ _ (Nat.le_of_eq hii)]
      have e : i + 1 - Q.cmds_offset.length = 0 := by omega
      rw [e]
      simpa using h6 i hii
  · intro n hn
    simp only [HWQueue.appendCmd, List.length_append, List.length_singleton] at hn ⊢
    have hno : n = Q.cmds_offset.length := by omega
    subst hno
    rw [List.getD_append_right _ _ _ _ (Nat.le_refl _), Nat.sub_self,
        List.getD_append_right _ _ _ _ (Nat.le_of_eq h1.symm)]
    have e : Q.cmds_offset.length - Q.cmds_len.length = 0 := by omega
    rw [e]
    simp only [List.getD_cons_zero]
    omega

/-- Every fold of append-and-record steps over a well-formed queue yields a
well-formed queue. -/
theorem HWQueue.wf_foldl (cmds : List (CmdKind × List Nat)) :
    ∀ (Q : HWQueue), Q.wf →
      (cmds.foldl (fun acc c => acc.appendCmd c.1 c.2) Q).wf := by
  induction cmds with
  | nil => intro Q h; exact h
  | cons c cs ih => intro Q h; exact ih _ (HWQueue.wf_appendCmd Q h c.1 c.2)

/-- Claim C9: for every queue built solely through the public
command-appending methods, `offsets[0] = 0`,
`offsets[i] + lengths[i] = offsets[i+1]` for every `i` below the last
command index, the last offset plus the last length is the total
word-stream length (so the stream is the concatenation of the command
records in append order), and the metadata vectors have equal length. -/
theorem HWQueue.buildQueue_concat_invariant (cmds : List (CmdKind × List Nat)) :
    (HWQueue.buildQueue cmds).cmds_offset.getD 0 0 = 0 ∧
    (∀ i, i + 1 < (HWQueue.buildQueue cmds).cmds_offset.length →
      (HWQueue.buildQueue cmds).cmds_offset.getD i 0 +
        (HWQueue.buildQueue cmds).cmds_len.getD i 0 =
        (HWQueue.buildQueue cmds).cmds_offset.getD (i + 1) 0) ∧
    (∀ n, (HWQueue.buildQueue cmds).cmds_offset.length = n + 1 →
      (HWQueue.buildQueue cmds).cmds_offset.getD n 0 +
        (HWQueue.buildQueue cmds).cmds_len.getD n 0 =
        (HWQueue.buildQueue cmds).q.length) ∧
    (HWQueue.buildQueue cmds).cmds_offset.length =
      (HWQueue.buildQueue cmds).cmds_len.length ∧
    (HWQueue.buildQueue cmds).cmds_offset.length =
      (HWQueue.buildQueue cmds).cmds_meta.length := by
  have h := HWQueue.wf_foldl cmds HWQueue.init HWQueue.wf_init
  exact ⟨h.2.2.2.1, h.2.2.2.2.1, h.2.2.2.2.2, h.1, h.2.1⟩

/-- Witness for C9: a queue of three commands with emitted word counts
2, 1, 3 has offsets 0, 2, 3, adjacent offsets differing by the lengths,
and last offset plus last length equal to the stream length 6. -/
theorem HWQueue.buildQueue_concat_invariant_witness :
    (HWQueue.buildQueue
        [(CmdKind.signal, [1, 2]), (CmdKind.wait, [3]), (CmdKind.copy, [4, 5, 6])]).cmds_offset.getD
        0 0 = 0 ∧
    (HWQueue.buildQueue
        [(CmdKind.signal, [1, 2]), (CmdKind.wait, [3]), (CmdKind.copy, [4, 5, 6])]).cmds_offset.getD
        1 0 +
      (HWQueue.buildQueue
        [(CmdKind.signal, [1, 2]), (CmdKind.wait, [3]), (CmdKind.copy, [4, 5, 6])]).cmds_len.getD
        1 0 =
      (HWQueue.buildQueue
        [(CmdKind.signal, [1, 2]), (CmdKind.wait, [3]), (CmdKind.copy, [4, 5, 6])]).cmds_offset.getD
        2 0 ∧
    (HWQueue.buildQueue
        [(CmdKind.signal, [1, 2]), (CmdKind.wait, [3]), (CmdKind.copy, [4, 5, 6])]).cmds_offset.getD
        2 0 +
      (HWQueue.buildQueue
        [(CmdKind.signal, [1, 2]), (CmdKind.wait, [3]), (CmdKind.copy, [4, 5, 6])]).cmds_len.getD
        2 0 =
      (HWQueue.buildQueue
        [(CmdKind.signal, [1, 2]), (CmdKind.wait, [3]), (CmdKind.copy, [4, 5, 6])]).q.length := by
  have h := HWQueue.buildQueue_concat_invariant
    [(CmdKind.signal, [1, 2]), (CmdKind.wait, [3]), (CmdKind.copy, [4, 5, 6])]
  exact ⟨h.1, h.2.1 1 (by decide), h.2.2.1 2 (by decide)⟩

/-- Setting one index of a list leaves `getD` at any other index alone. -/
theorem list_getD_set_ne (l : List Nat) (i j v d : Nat) (h : i ≠ j) :
    (l.set i v).getD j d = l.getD j d := by
  induction l generalizing i j with
  | nil => simp [List.set]
  | cons a t ih =>
    cases i with
    | zero =>
      cases j with
      | zero => exact absurd rfl h
      | succ j => rfl
    | succ i =>
      cases j with
      | zero => rfl
      | succ j =>
        show (t.set i v).getD j d = t.getD j d
        exact ih i j (fun he => h (by rw [he]))

/-- `getD` at an in-range index just set returns the new value. -/
theorem list_getD_set_self (l : List Nat) (i v d : Nat) (h : i < l.length) :
    (l.set i v).getD i d = v := by
  induction l generalizing i with
  | nil => simp at h
  | cons a t ih =>
    cases i with
    | zero => rfl
    | succ i =>
      show (t.set i v).getD i d = v
      exact ih i (by simpa using h)

/-- Adding a nonzero amount below the modulus changes a residue. -/
theorem mod_add_ne (n a k : Nat) (hn : 0 < n) (hk1 : 0 < k) (hk2 : k < n) :
    (a + k) % n ≠ a % n := by
  intro h
  have h1 : (a % n + k) % n = a % n := by rw [Nat.mod_add_mod, h]
  have h2 : a % n < n := Nat.mod_lt _ hn
  rcases Nat.lt_or_ge (a % n + k) n with hlt | hge
  · rw [Nat.mod_eq_of_lt hlt] at h1
    omega
  · rw [Nat.mod_eq_sub_mod hge, Nat.mod_eq_of_lt (by omega)] at h1
    omega

/-- Peeling one chunk off a ceiling-division chunk count. -/
theorem chunk_count_step (bsz M : Nat) (hb : 0 < bsz) (hM : 0 < M) :
    (M + bsz - 1) / bsz = (M - bsz + bsz - 1) / bsz + 1 := by
  rcases Nat.lt_or_ge M bsz with h | h
  · have e1 : M - bsz = 0 := by omega
    have e2 : M + bsz - 1 = (M - 1) + bsz := by omega
    rw [e1, e2, Nat.add_div_right _ hb, Nat.div_eq_of_lt (by omega),
        Nat.div_eq_of_lt (by omega)]
  · have e2 : M + bsz - 1 = (M - bsz + bsz - 1) + bsz := by omega
    rw [e2, Nat.add_div_right _ hb]

/-- The default used when reading past the end of an event list (never
reached by the in-range statements below). -/
def HCQAllocator.nullEvent : CopyinEvent := ⟨0, 0, 0, 0, 0, 0, 0⟩

/-- Full characterisation of `_copyin`'s loop from byte offset `i`: the
number of submitted copies is the ceiling of the remaining bytes over the
buffer size, each event's fields are as recorded, the timeline grows by
the number of chunks, and the ring cursor advances by it modulo the ring
length.  The `m`-th host wait target is the original slot timeline the
first time around the ring, and the timeline value assigned `nbuf` chunks
earlier on later laps. -/
theorem HCQAllocator.copyinLoop_spec (bsz nbuf dest_addr : Nat) (b_addr : List Nat)
    (nbytes : Nat) (hb : 0 < bsz) (hn : 0 < nbuf) :
    ∀ (fuel i : Nat) (st : CopyinState),
      st.b_timeline.length = nbuf → st.b_next < nbuf → nbytes ≤ i + bsz * fuel →
      (HCQAllocator.copyinLoop bsz nbuf dest_addr b_addr nbytes i fuel st).1.length =
          (nbytes - i + bsz - 1) / bsz ∧
      (HCQAllocator.copyinLoop bsz nbuf dest_addr b_addr nbytes i fuel st).2.timeline_value =
          st.timeline_value + (nbytes - i + bsz - 1) / bsz ∧
      (HCQAllocator.copyinLoop bsz nbuf dest_addr b_addr nbytes i fuel st).2.b_next =
          (st.b_next + (nbytes - i + bsz - 1) / bsz) % nbuf ∧
      (HCQAllocator.copyinLoop bsz nbuf dest_addr b_addr nbytes i fuel st).2.b_timeline.length =
          nbuf ∧
      (∀ m, m < (nbytes - i + bsz - 1) / bsz →
        (HCQAllocator.copyinLoop bsz nbuf dest_addr b_addr nbytes i fuel st).1.getD m
            HCQAllocator.nullEvent =
          ⟨(st.b_next + m + 1) % nbuf,
           if m < nbuf then st.b_timeline.getD ((st.b_next + m + 1) % nbuf) 0
           else st.timeline_value + (m - nbuf),
           dest_addr + i + m * bsz,
           b_addr.getD ((st.b_next + m + 1) % nbuf) 0,
           min bsz (nbytes - i - m * bsz),
           st.timeline_value + m - 1,
           st.timeline_value + m⟩) := by
  intro fuel
  induction fuel with
  | zero =>
    intro i st hlen hbn hle
    simp only [Nat.mul_zero, Nat.add_zero] at hle
    have hz : (nbytes - i + bsz - 1) / bsz = 0 := by
      have e : nbytes - i = 0 := by omega
      rw [e, Nat.zero_add]
      exact Nat.div_eq_of_lt (by omega)
    simp only [HCQAllocator.copyinLoop, hz]
    refine ⟨rfl, rfl, ?_, hlen, ?_⟩
    · rw [Nat.add_zero, Nat.mod_eq_of_lt hbn]
    · intro m hm
      exact absurd hm (Nat.not_lt_zero m)
  | succ fuel ih =>
    intro i st hlen hbn hle
    by_cases hi : i < nbytes
    · simp only [HCQAllocator.copyinLoop]
      rw [if_pos hi]
      have hfuel : nbytes ≤ (i + bsz) + bsz * fuel := by
        rw [Nat.mul_succ] at hle
        generalize bsz * fuel = p at hle ⊢
        omega
      obtain ⟨hL, hTV, hBN, hBL, hEV⟩ :=
        ih (i + bsz)
          ⟨(st.b_next + 1) % nbuf,
           st.b_timeline.set ((st.b_next + 1) % nbuf) st.timeline_value,
           st.timeline_value + 1⟩
          (by simp [hlen]) (Nat.mod_lt _ hn) hfuel
      have hMpos : 0 < nbytes - i := by omega
      have hstep : (nbytes - i + bsz - 1) / bsz = (nbytes - (i + bsz) + bsz - 1) / bsz + 1 := by
        have e : nbytes - (i + bsz) = nbytes - i - bsz := by omega
        rw [e]
        exact chunk_count_step bsz (nbytes - i) hb hMpos
      refine ⟨?_, ?_, ?_, ?_, ?_⟩
      · simp only [List.length_cons, hL, hstep]
      · rw [hstep]
        simp only [hTV]
        omega
      · rw [hstep]
        simp only [hBN]
        rw [Nat.mod_add_mod]
        rw [show st.b_next + 1 + (nbytes - (i + bsz) + bsz - 1) / bsz =
              st.b_next + ((nbytes - (i + bsz) + bsz - 1) / bsz + 1) from by omega]
      · exact hBL
      · intro m hm
        cases m with
        | zero =>
          simp only [List.getD_cons_zero]
          rw [if_pos hn]
          simp only [Nat.add_zero, Nat.zero_mul, Nat.sub_zero]
        | succ m =>
          rw [hstep] at hm
          have hm' : m < (nbytes - (i + bsz) + bsz - 1) / bsz := by omega
          have hev := hEV m hm'
          simp only [List.getD_cons_succ]
          rw [hev]
          simp only [CopyinEvent.mk.injEq]
          refine ⟨?_, ?_, ?_, ?_, ?_, ?_, ?_⟩
          · rw [show (st.b_next + 1) % nbuf + m + 1 = (st.b_next + 1) % nbuf + (m + 1) from
                  by omega,
                Nat.mod_add_mod,
                show st.b_next + 1 + (m + 1) = st.b_next + (m + 1) + 1 from by omega]
          · by_cases hmn : m + 1 < nbuf
            · rw [if_pos (by omega : m < nbuf), if_pos hmn]
              rw [show (st.b_next + 1) % nbuf + m + 1 = (st.b_next + 1) % nbuf + (m + 1) from
                    by omega,
                  Nat.mod_add_mod]
              rw [list_getD_set_ne _ _ _ _ _
                    (Ne.symm (by
                      rw [show st.b_next + 1 + (m + 1) = (st.b_next + 1) + (m + 1) from rfl]
                      exact mod_add_ne nbuf (st.b_next + 1) (m + 1) hn (Nat.succ_pos m) hmn))]
              rw [show st.b_next + 1 + (m + 1) = st.b_next + (m + 1) + 1 from by omega]
            · by_cases hmn2 : m < nbuf
              · rw [if_pos hmn2, if_neg hmn]
                rw [show (st.b_next + 1) % nbuf + m + 1 = (st.b_next + 1) % nbuf + nbuf from
                      by omega,
                    Nat.add_mod_right, Nat.mod_eq_of_lt (Nat.mod_lt _ hn)]
                rw [list_getD_set_self _ _ _ _ (by rw [hlen]; exact Nat.mod_lt _ hn)]
                omega
              · rw [if_neg hmn2, if_neg hmn]
                omega
          · rw [Nat.succ_mul]
            ring
          · rw [show (st.b_next + 1) % nbuf + m + 1 = (st.b_next + 1) % nbuf + (m + 1) from
                  by omega,
                Nat.mod_add_mod,
                show st.b_next + 1 + (m + 1) = st.b_next + (m + 1) + 1 from by omega]
          · rw [show nbytes - (i + bsz) - m * bsz = nbytes - i - (m + 1) * bsz from by
              rw [Nat.succ_mul]
              generalize m * bsz = p
              omega]
          · omega
          · omega
    · simp only [HCQAllocator.copyinLoop]
      rw [if_neg hi]
      have hz : (nbytes - i + bsz - 1) / bsz = 0 := by
        have e : nbytes - i = 0 := by omega
        rw [e, Nat.zero_add]
        exact Nat.div_eq_of_lt (by omega)
      rw [hz]
      refine ⟨rfl, rfl, ?_, hlen, ?_⟩
      · rw [Nat.add_zero, Nat.mod_eq_of_lt hbn]
      · intro m hm
        exact absurd hm (Nat.not_lt_zero m)

/-- Claim C5: for a source of `nbytes` bytes, `_copyin` submits exactly
⌈nbytes / buffer_size⌉ copy queues; the m-th copies
`min(buffer_size, bytes remaining)` bytes at destination offset
`m * buffer_size` out of the staging slot `(b_next + m + 1) mod nbuf`
reached by advancing `b_next` modulo the ring length; before each chunk
the host waits on the slot's recorded `b_timeline` entry (the value set
`nbuf` chunks earlier once the ring has wrapped); the submitted queue
waits on `timeline_value - 1` and signals `timeline_value`, each chunk's
slot is then recorded at the assigned timeline value and `timeline_value`
is incremented, so it grows by exactly the number of chunks. -/
theorem HCQAllocator.copyin_spec (bsz nbuf dest_addr : Nat) (b_addr : List Nat)
    (nbytes : Nat) (st : CopyinState) (hb : 0 < bsz) (hn : 0 < nbuf)
    (hlen : st.b_timeline.length = nbuf) (hbn : st.b_next < nbuf) :
    (HCQAllocator.copyin bsz nbuf dest_addr b_addr nbytes st).1.length =
        (nbytes + bsz - 1) / bsz ∧
    (HCQAllocator.copyin bsz nbuf dest_addr b_addr nbytes st).2.timeline_value =
        st.timeline_value + (nbytes + bsz - 1) / bsz ∧
    (HCQAllocator.copyin bsz nbuf dest_addr b_addr nbytes st).2.b_next =
        (st.b_next + (nbytes + bsz - 1) / bsz) % nbuf ∧
    (∀ m, m < (nbytes + bsz - 1) / bsz →
      (HCQAllocator.copyin bsz nbuf dest_addr b_addr nbytes st).1.getD m
          HCQAllocator.nullEvent =
        ⟨(st.b_next + m + 1) % nbuf,
         if m < nbuf then st.b_timeline.getD ((st.b_next + m + 1) % nbuf) 0
         else st.timeline_value + (m - nbuf),
         dest_addr + m * bsz,
         b_addr.getD ((st.b_next + m + 1) % nbuf) 0,
         min bsz (nbytes - m * bsz),
         st.timeline_value + m - 1,
         st.timeline_value + m⟩) := by
  have hfuel : nbytes ≤ 0 + bsz * nbytes := by
    have h1 : 1 * nbytes ≤ bsz * nbytes := Nat.mul_le_mul_right nbytes hb
    simpa using h1
  have H := HCQAllocator.copyinLoop_spec bsz nbuf dest_addr b_addr nbytes hb hn
    nbytes 0 st hlen hbn hfuel
  simp only [Nat.sub_zero, Nat.zero_add, Nat.add_zero] at H
  exact ⟨H.1, H.2.1, H.2.2.1, H.2.2.2.2⟩

/-- Witness for C5, the spec's own example: 7 bytes with buffer size 2 on
a 3-slot ring yield 4 submitted copies; the timeline grows from 5 to 9;
the last chunk (the second lap of the ring) copies 1 byte at destination
offset 6 from slot 1, waiting on the timeline value 5 that chunk 0
recorded there. -/
theorem HCQAllocator.copyin_spec_witness :
    (HCQAllocator.copyin 2 3 100 [10, 20, 30] 7 ⟨0, [0, 0, 0], 5⟩).1.length = 4 ∧
    (HCQAllocator.copyin 2 3 100 [10, 20, 30] 7 ⟨0, [0, 0, 0], 5⟩).2.timeline_value = 9 ∧
    (HCQAllocator.copyin 2 3 100 [10, 20, 30] 7 ⟨0, [0, 0, 0], 5⟩).1.getD 3
        HCQAllocator.nullEvent = ⟨1, 5, 106, 20, 1, 7, 8⟩ := by
  have H := HCQAllocator.copyin_spec 2 3 100 [10, 20, 30] 7 ⟨0, [0, 0, 0], 5⟩
    (by decide) (by decide) (by decide) (by decide)
  refine ⟨H.1, H.2.1, ?_⟩
  exact (H.2.2.2 3 (by decide)).trans (by decide)
